import Mathlib

/-!
Verification of the node persistence layer of CyberWeaver
(src/src-tauri/src/lib.rs): payload validation, identifier and type
normalization, transactional batch upsert, deduplicated batch delete,
list ordering, and additive schema migration.

The SQLite `nodes` table is modelled as a list of rows; `unixepoch()` is
modelled by an explicit `tnow : Nat` parameter held fixed for the
statements of one call.  Rust `f64` values are modelled abstractly by
`F64`: a finite rational, NaN, or a signed infinity — the code only ever
inspects finiteness and comparison with zero, which this model captures
exactly.
-/

deriving instance DecidableEq for Except

/-- Abstract model of an `f64` value: the code only checks `is_finite`
and `<= 0.0`, so a finite value is carried as the rational it denotes. -/
inductive F64 where
  | finite (val : Rat)
  | nan
  | inf
  | negInf
deriving DecidableEq

/-- Model of Rust `f64::is_finite`. -/
def F64.isFinite : F64 → Bool
  | .finite _ => true
  | _ => false

/-- Model of the Rust comparison `value <= 0.0` (false on NaN). -/
def F64.leZero : F64 → Bool
  | .finite q => decide (q ≤ 0)
  | .nan => false
  | .inf => false
  | .negInf => true

/-- `NodePayload` of lib.rs: the caller-supplied record for one node. -/
structure NodePayload where
  id : String
  node_type : String
  x : F64
  y : F64
  content : String
  width : Option F64
  height : Option F64
deriving DecidableEq

/-- One row of the `nodes` table (columns of the schema in lib.rs). -/
structure Row where
  id : String
  node_type : String
  x : F64
  y : F64
  content : String
  width : Option F64
  height : Option F64
  updated_at : Nat
deriving DecidableEq

/-- `NodeModel` of lib.rs: what `list_nodes_internal` returns per row
(`updated_at` is not selected). -/
structure NodeModel where
  id : String
  node_type : String
  x : F64
  y : F64
  content : String
  width : Option F64
  height : Option F64
deriving DecidableEq

/-- `NodeModel::from_row` of lib.rs, on an in-model row. -/
def NodeModel.from_row (r : Row) : NodeModel :=
  { id := r.id, node_type := r.node_type, x := r.x, y := r.y
    content := r.content, width := r.width, height := r.height }

/-- The `nodes` table: a list of rows (`id` is the primary key, so in any
state reachable through the store the ids are pairwise distinct). -/
abbrev Db := List Row

/-- Rust `str::trim`: strips whitespace from both ends.  Defined on the
character list so that it is kernel-executable. -/
def strTrim (s : String) : String :=
  ⟨((s.data.dropWhile Char.isWhitespace).reverse.dropWhile Char.isWhitespace).reverse⟩

/-- Rust `str::starts_with`, kernel-executable. -/
def strStartsWith (s pre : String) : Bool :=
  pre.data.isPrefixOf s.data

/-- Rust `str::is_empty`, kernel-executable. -/
def strIsEmpty (s : String) : Bool :=
  s.data.isEmpty

/-- `normalize_shape_id` of lib.rs. -/
def normalize_shape_id (raw : String) : String :=
  let trimmed := strTrim raw
  if strStartsWith trimmed ("shape:") then trimmed
  else ("shape:") ++ trimmed

/-- `normalize_node_type` of lib.rs. -/
def normalize_node_type (raw : String) : Option String :=
  match strTrim raw with
  | "geo" => some ("geo")
  | "text" => some ("text")
  | "note" => some ("note")
  | _ => none

/-- The Rust closure `|value| !value.is_finite() || value <= 0.0` applied
through `Option::is_some_and`. -/
def badDimension (o : Option F64) : Bool :=
  match o with
  | some v => !v.isFinite || v.leZero
  | none => false

/-- `validate_node_payload` of lib.rs. -/
def validate_node_payload (node : NodePayload) : Except String Unit :=
  if strIsEmpty (strTrim node.id) then
    .error ("node.id must not be empty")
  else if (normalize_node_type node.node_type).isNone then
    .error (s!"unsupported node type: {node.node_type}")
  else if !node.x.isFinite || !node.y.isFinite then
    .error ("node coordinates must be finite numbers")
  else if badDimension node.width then
    .error ("node.width must be a positive finite number when provided")
  else if badDimension node.height then
    .error ("node.height must be a positive finite number when provided")
  else
    .ok ()

/-- One `INSERT ... ON CONFLICT(id) DO UPDATE` statement: with `id` the
primary key, the row is replaced if present and appended otherwise. -/
def upsertRow (db : Db) (r : Row) : Db :=
  if db.any (fun row => row.id == r.id) then
    db.map (fun row => if row.id == r.id then r else row)
  else
    db ++ [r]

/-- The row written for one payload inside `upsert_nodes_internal`
(`ty` is the normalized type, `tnow` models `unixepoch()`). -/
def rowOfPayload (node : NodePayload) (ty : String) (tnow : Nat) : Row :=
  { id := normalize_shape_id node.id, node_type := ty, x := node.x
    y := node.y, content := node.content, width := node.width
    height := node.height, updated_at := tnow }

/-- The body of the transaction loop of `upsert_nodes_internal` for one
payload: re-normalize the type (`ok_or_else` the unsupported-type error),
then execute the upsert statement. -/
def execUpsert (db : Db) (node : NodePayload) (tnow : Nat) : Except String Db :=
  match normalize_node_type node.node_type with
  | none => .error (s!"unsupported node type: {node.node_type}")
  | some ty => .ok (upsertRow db (rowOfPayload node ty tnow))

/-- The transaction loop of `upsert_nodes_internal`: payloads applied in
caller-supplied order. -/
def execUpserts (db : Db) (nodes : List NodePayload) (tnow : Nat) : Except String Db :=
  match nodes with
  | [] => .ok db
  | node :: rest =>
    match execUpsert db node tnow with
    | .error e => .error e
    | .ok db' => execUpserts db' rest tnow

/-- The validation loop of `upsert_nodes_internal`: every payload is
validated (the `?` operator propagates the first error) before the
transaction opens. -/
def validateAll (nodes : List NodePayload) : Except String Unit :=
  match nodes with
  | [] => .ok ()
  | node :: rest =>
    match validate_node_payload node with
    | .error e => .error e
    | .ok _ => validateAll rest

/-- `upsert_nodes_internal` of lib.rs.  An `Except.error` result models a
call that returned `Err` with the transaction not committed: the stored
state is the caller's unchanged `db`. -/
def upsert_nodes_internal (db : Db) (nodes : List NodePayload) (tnow : Nat) :
    Except String Db :=
  if nodes.isEmpty then .ok db
  else
    match validateAll nodes with
    | .error e => .error e
    | .ok _ => execUpserts db nodes tnow

/-- The SQL filter `type IN ('geo', 'text', 'note')`. -/
def allowedType (ty : String) : Bool :=
  ty == ("geo") || ty == ("text") || ty == ("note")

/-- Strict lexicographic order on character lists by code point: the
order SQLite's binary collation and Rust's `Ord for String` both induce
on well-formed UTF-8 (byte order coincides with code-point order). -/
def charListLt : List Char → List Char → Bool
  | _, [] => false
  | [], _ :: _ => true
  | c :: cs, d :: ds =>
    decide (c.toNat < d.toNat) || (decide (c.toNat = d.toNat) && charListLt cs ds)

/-- Strict string order (binary collation), kernel-executable. -/
def strLt (a b : String) : Bool :=
  charListLt a.data b.data

/-- Reflexive string order: `a ≤ b` iff not `b < a`. -/
def strLe (a b : String) : Bool :=
  !strLt b a

/-- The row ordering of `ORDER BY updated_at ASC, id ASC`. -/
def rowLe (a b : Row) : Prop :=
  a.updated_at < b.updated_at ∨ (a.updated_at = b.updated_at ∧ strLe a.id b.id = true)

instance : DecidableRel rowLe :=
  fun a b =>
    inferInstanceAs
      (Decidable
        (a.updated_at < b.updated_at ∨
          (a.updated_at = b.updated_at ∧ strLe a.id b.id = true)))

/-- `list_nodes_internal` of lib.rs: filter to the closed type set, order
by (`updated_at`, `id`), and decode each row to a `NodeModel`. -/
def list_nodes_internal (db : Db) : List NodeModel :=
  ((db.filter (fun r => allowedType r.node_type)).insertionSort rowLe).map
    NodeModel.from_row

/-- Insertion into a `BTreeSet<String>` iterated in ascending order:
sorted insert without duplicates. -/
def btreeInsert (x : String) : List String → List String
  | [] => [x]
  | y :: ys =>
    if strLt x y then x :: y :: ys
    else if x = y then y :: ys
    else y :: btreeInsert x ys

/-- The loop body of `normalize_delete_ids`: trim, skip empties, insert
the prefixed id into the set. -/
def ndiStep (deduped : List String) (id : String) : List String :=
  let trimmed := strTrim id
  if strIsEmpty trimmed then deduped
  else btreeInsert (normalize_shape_id trimmed) deduped

/-- `normalize_delete_ids` of lib.rs: trim, drop empties, prefix, collect
into a `BTreeSet`, and read the set out in ascending order. -/
def normalize_delete_ids (ids : List String) : List String :=
  ids.foldl ndiStep []

/-- `delete_nodes_internal` of lib.rs: `DELETE FROM nodes WHERE id IN
(set)` keeps exactly the rows whose id is outside the set; the empty set
short-circuits to success. -/
def delete_nodes_internal (db : Db) (ids : List String) : Except String Db :=
  let normalized_ids := normalize_delete_ids ids
  if normalized_ids.isEmpty then .ok db
  else .ok (db.filter (fun r => !normalized_ids.contains r.id))

/-- One column of the `nodes` table as seen by `PRAGMA table_info`. -/
structure Column where
  name : String
  defn : String
deriving DecidableEq

/-- The schema state the Schema Manager manipulates: the `nodes` table's
column list when the table exists, and whether the composite index
exists. -/
structure SchemaState where
  nodesTable : Option (List Column)
  typeUpdatedAtIndex : Bool
deriving DecidableEq

/-- The column set of the `CREATE TABLE IF NOT EXISTS nodes (...)`
statement of `init_schema`. -/
def baseColumns : List Column :=
  [{ name := "id", defn := "TEXT PRIMARY KEY" },
   { name := "type", defn := "TEXT NOT NULL" },
   { name := "x", defn := "REAL NOT NULL" },
   { name := "y", defn := "REAL NOT NULL" },
   { name := "content", defn := "TEXT NOT NULL" },
   { name := "width", defn := "REAL" },
   { name := "height", defn := "REAL" },
   { name := "updated_at", defn := "INTEGER NOT NULL DEFAULT 0" }]

/-- `CREATE TABLE IF NOT EXISTS nodes (...)`: creates the table only when
absent. -/
def createTableIfNotExists (s : SchemaState) : SchemaState :=
  match s.nodesTable with
  | some _ => s
  | none => { s with nodesTable := some baseColumns }

/-- Whether `PRAGMA table_info(nodes)` reports a column named `name`
(zero rows when the table does not exist). -/
def hasColumn (s : SchemaState) (name : String) : Bool :=
  match s.nodesTable with
  | none => false
  | some cols => cols.any (fun c => c.name == name)

/-- `ensure_column` of lib.rs: inspect the live table metadata; return
success untouched when the column is present, otherwise run the additive
`ALTER TABLE nodes ADD COLUMN` (which fails when the table is absent). -/
def ensure_column (s : SchemaState) (column_name column_definition : String) :
    Except String SchemaState :=
  if hasColumn s column_name then .ok s
  else
    match s.nodesTable with
    | none => .error ("no such table: nodes")
    | some cols =>
      .ok { s with nodesTable := some (cols ++ [{ name := column_name, defn := column_definition }]) }

/-- `init_schema` of lib.rs: create the table if absent, additively
ensure the `width`, `height` and `updated_at` columns, then create the
composite index if absent. -/
def init_schema (s : SchemaState) : Except String SchemaState :=
  let s1 := createTableIfNotExists s
  match ensure_column s1 ("width") ("REAL") with
  | .error e => .error e
  | .ok s2 =>
    match ensure_column s2 ("height") ("REAL") with
    | .error e => .error e
    | .ok s3 =>
      match ensure_column s3 ("updated_at") ("INTEGER NOT NULL DEFAULT 0") with
      | .error e => .error e
      | .ok s4 => .ok { s4 with typeUpdatedAtIndex := true }

example : normalize_shape_id ("  artifact-1 ") = ("shape:artifact-1") := by decide
example : normalize_shape_id ("shape:z") = ("shape:z") := by decide
example : normalize_node_type (" geo ") = some ("geo") := by decide
example : normalize_node_type ("GEO") = none := by decide
example : validate_node_payload
    { id := "a", node_type := "draw", x := .finite 0, y := .finite 0
      content := "", width := none, height := none }
    = .error ("unsupported node type: draw") := by decide


/-! ### Order lemmas for the binary string collation -/

theorem charListLt_nil_right : ∀ a, charListLt a [] = false
  | [] => rfl
  | _ :: _ => rfl

theorem charListLt_irrefl : ∀ l, charListLt l l = false
  | [] => rfl
  | c :: cs => by
    simp [charListLt, charListLt_irrefl cs]

theorem charListLt_trans : ∀ {a b c : List Char},
    charListLt a b = true → charListLt b c = true → charListLt a c = true
  | _, b, [], _, hbc => by rw [charListLt_nil_right] at hbc; cases hbc
  | [], _, _ :: _, _, _ => rfl
  | _ :: _, [], _ :: _, hab, _ => by rw [charListLt_nil_right] at hab; cases hab
  | x :: xs, y :: ys, z :: zs, hab, hbc => by
    simp only [charListLt, Bool.or_eq_true, Bool.and_eq_true,
      decide_eq_true_eq] at hab hbc ⊢
    rcases hab with h1 | ⟨h1, h1t⟩ <;> rcases hbc with h2 | ⟨h2, h2t⟩
    · exact Or.inl (Nat.lt_trans h1 h2)
    · exact Or.inl (h2 ▸ h1)
    · exact Or.inl (h1 ▸ h2)
    · exact Or.inr ⟨h1.trans h2, charListLt_trans h1t h2t⟩

theorem charListLt_asymm {a b : List Char} (h : charListLt a b = true) :
    charListLt b a = false := by
  by_contra hne
  have hba : charListLt b a = true := by
    cases hb : charListLt b a
    · exact absurd hb hne
    · rfl
  have := charListLt_trans h hba
  rw [charListLt_irrefl] at this
  cases this

theorem charListLt_eq_of_not : ∀ {a b : List Char},
    charListLt a b = false → charListLt b a = false → a = b
  | [], [], _, _ => rfl
  | [], _ :: _, hab, _ => by cases hab
  | _ :: _, [], _, hba => by cases hba
  | x :: xs, y :: ys, hab, hba => by
    simp only [charListLt, Bool.or_eq_false_iff, Bool.and_eq_false_iff,
      decide_eq_false_iff_not, decide_eq_true_eq] at hab hba
    have hxy : x.toNat = y.toNat := by
      have h1 := hab.1
      have h2 := hba.1
      omega
    have hx : x = y := Char.ext (UInt32.toNat.inj hxy)
    have ht : xs = ys := by
      apply charListLt_eq_of_not
      · rcases hab.2 with h | h
        · exact absurd hxy h
        · exact h
      · rcases hba.2 with h | h
        · exact absurd hxy.symm h
        · exact h
    rw [hx, ht]

theorem strLt_asymm {a b : String} (h : strLt a b = true) : strLt b a = false :=
  charListLt_asymm h

theorem strLt_irrefl (a : String) : strLt a a = false :=
  charListLt_irrefl a.data

theorem strLt_trans {a b c : String} (hab : strLt a b = true)
    (hbc : strLt b c = true) : strLt a c = true :=
  charListLt_trans hab hbc

theorem strEq_of_not_lt {a b : String} (hab : strLt a b = false)
    (hba : strLt b a = false) : a = b := by
  have : a.data = b.data := charListLt_eq_of_not hab hba
  cases a
  cases b
  exact congrArg String.mk this

theorem strLe_total (a b : String) : strLe a b = true ∨ strLe b a = true := by
  unfold strLe
  cases h : strLt b a
  · exact Or.inl rfl
  · exact Or.inr (by simp [strLt_asymm h])

theorem strLe_trans {a b c : String} (hab : strLe a b = true)
    (hbc : strLe b c = true) : strLe a c = true := by
  unfold strLe at *
  simp only [Bool.not_eq_true'] at hab hbc ⊢
  cases hca : strLt c a
  · rfl
  · cases hab' : strLt a b
    · have : a = b := strEq_of_not_lt hab' hab
      subst this
      rw [hca] at hbc
      cases hbc
    · have := strLt_trans hca hab'
      rw [this] at hbc
      cases hbc

theorem strLe_antisymm {a b : String} (hab : strLe a b = true)
    (hba : strLe b a = true) : a = b := by
  unfold strLe at hab hba
  simp only [Bool.not_eq_true'] at hab hba
  exact strEq_of_not_lt hba hab

instance : IsTotal Row rowLe := by
  constructor
  intro a b
  unfold rowLe
  rcases Nat.lt_trichotomy a.updated_at b.updated_at with h | h | h
  · exact Or.inl (Or.inl h)
  · rcases strLe_total a.id b.id with hs | hs
    · exact Or.inl (Or.inr ⟨h, hs⟩)
    · exact Or.inr (Or.inr ⟨h.symm, hs⟩)
  · exact Or.inr (Or.inl h)

instance : IsTrans Row rowLe := by
  constructor
  intro a b c hab hbc
  unfold rowLe at *
  rcases hab with h1 | ⟨h1, h1s⟩ <;> rcases hbc with h2 | ⟨h2, h2s⟩
  · exact Or.inl (Nat.lt_trans h1 h2)
  · exact Or.inl (h2 ▸ h1)
  · exact Or.inl (h1 ▸ h2)
  · exact Or.inr ⟨h1.trans h2, strLe_trans h1s h2s⟩

/-! ### The delete set: BTreeSet model lemmas -/

/-- The strict string order as a relation, for sortedness statements. -/
def sLt (a b : String) : Prop :=
  strLt a b = true

instance : DecidableRel sLt :=
  fun a b => inferInstanceAs (Decidable (strLt a b = true))

instance : IsIrrefl String sLt :=
  ⟨fun a h => by unfold sLt at h; rw [strLt_irrefl] at h; cases h⟩

instance : IsTrans String sLt :=
  ⟨fun _ _ _ => strLt_trans⟩

instance : IsAntisymm String sLt :=
  ⟨fun a b hab hba => by
    unfold sLt at hab hba
    have := strLt_asymm hab
    rw [this] at hba
    cases hba⟩

theorem mem_btreeInsert {a x : String} : ∀ l, a ∈ btreeInsert x l ↔ a = x ∨ a ∈ l
  | [] => by simp [btreeInsert]
  | y :: ys => by
    unfold btreeInsert
    split
    · simp only [List.mem_cons]
    · split
      · rename_i heq
        subst heq
        simp only [List.mem_cons]
        tauto
      · simp only [List.mem_cons, mem_btreeInsert ys]
        tauto

theorem sorted_btreeInsert {x : String} :
    ∀ {l}, l.Sorted sLt → (btreeInsert x l).Sorted sLt
  | [], _ => by simp [btreeInsert]
  | y :: ys, h => by
    rw [List.sorted_cons] at h
    obtain ⟨hy, hys⟩ := h
    unfold btreeInsert
    split
    · rename_i hxy
      rw [List.sorted_cons]
      refine ⟨fun b hb => ?_, List.sorted_cons.mpr ⟨hy, hys⟩⟩
      rcases List.mem_cons.mp hb with rfl | hb
      · exact hxy
      · exact strLt_trans hxy (hy b hb)
    · rename_i hxy
      rw [Bool.not_eq_true] at hxy
      split
      · exact List.sorted_cons.mpr ⟨hy, hys⟩
      · rename_i hne
        rw [List.sorted_cons]
        refine ⟨fun b hb => ?_, sorted_btreeInsert hys⟩
        rcases (mem_btreeInsert _).mp hb with rfl | hb
        · cases hyb : strLt y b
          · exact absurd (strEq_of_not_lt hxy hyb) hne
          · exact hyb
        · exact hy b hb

theorem ndiStep_of_empty {acc : List String} {id : String}
    (h : strIsEmpty (strTrim id) = true) : ndiStep acc id = acc := by
  simp [ndiStep, h]

theorem ndiStep_of_not_empty {acc : List String} {id : String}
    (h : strIsEmpty (strTrim id) = false) :
    ndiStep acc id = btreeInsert (normalize_shape_id (strTrim id)) acc := by
  simp [ndiStep, h]

theorem mem_foldl_ndiStep (ids : List String) (acc : List String) (a : String) :
    a ∈ ids.foldl ndiStep acc ↔
      a ∈ acc ∨ ∃ id ∈ ids, strIsEmpty (strTrim id) = false ∧
        a = normalize_shape_id (strTrim id) := by
  induction ids generalizing acc with
  | nil => simp
  | cons id rest ih =>
    rw [List.foldl_cons, ih]
    cases h : strIsEmpty (strTrim id) with
    | true =>
      rw [ndiStep_of_empty h]
      simp only [List.mem_cons]
      constructor
      · rintro (ha | ⟨i, hi, hp⟩)
        · exact Or.inl ha
        · exact Or.inr ⟨i, ⟨Or.inr hi, hp⟩⟩
      · rintro (ha | ⟨i, ⟨rfl | hi, hp⟩⟩)
        · exact Or.inl ha
        · rw [h] at hp
          cases hp.1
        · exact Or.inr ⟨i, hi, hp⟩
    | false =>
      rw [ndiStep_of_not_empty h]
      simp only [List.mem_cons, mem_btreeInsert]
      constructor
      · rintro ((rfl | ha) | ⟨i, hi, hp⟩)
        · exact Or.inr ⟨id, Or.inl rfl, h, rfl⟩
        · exact Or.inl ha
        · exact Or.inr ⟨i, Or.inr hi, hp⟩
      · rintro (ha | ⟨i, ⟨rfl | hi, hp⟩⟩)
        · exact Or.inl (Or.inr ha)
        · exact Or.inl (Or.inl hp.2)
        · exact Or.inr ⟨i, hi, hp⟩

theorem sorted_foldl_ndiStep (ids : List String) (acc : List String)
    (hacc : acc.Sorted sLt) : (ids.foldl ndiStep acc).Sorted sLt := by
  induction ids generalizing acc with
  | nil => exact hacc
  | cons id rest ih =>
    rw [List.foldl_cons]
    apply ih
    cases h : strIsEmpty (strTrim id) with
    | true =>
      rw [ndiStep_of_empty h]
      exact hacc
    | false =>
      rw [ndiStep_of_not_empty h]
      exact sorted_btreeInsert hacc

theorem normalize_delete_ids_sorted (ids : List String) :
    (normalize_delete_ids ids).Sorted sLt :=
  sorted_foldl_ndiStep ids [] (by simp)

theorem mem_normalize_delete_ids (ids : List String) (a : String) :
    a ∈ normalize_delete_ids ids ↔
      ∃ id ∈ ids, strIsEmpty (strTrim id) = false ∧
        a = normalize_shape_id (strTrim id) := by
  rw [normalize_delete_ids, mem_foldl_ndiStep]
  simp

theorem normalize_delete_ids_perm {ids ids' : List String}
    (h : List.Perm ids ids') :
    normalize_delete_ids ids = normalize_delete_ids ids' := by
  have s1 := normalize_delete_ids_sorted ids
  have s2 := normalize_delete_ids_sorted ids'
  refine List.eq_of_perm_of_sorted ?_ s1 s2
  rw [List.perm_ext_iff_of_nodup s1.nodup s2.nodup]
  intro a
  rw [mem_normalize_delete_ids, mem_normalize_delete_ids]
  constructor
  · rintro ⟨i, hi, hp⟩
    exact ⟨i, h.subset hi, hp⟩
  · rintro ⟨i, hi, hp⟩
    exact ⟨i, h.symm.subset hi, hp⟩

theorem delete_nodes_internal_eq (db : Db) (ids : List String) :
    delete_nodes_internal db ids =
      .ok (db.filter (fun r => !(normalize_delete_ids ids).contains r.id)) := by
  simp only [delete_nodes_internal]
  split
  · rename_i h
    rw [List.isEmpty_iff] at h
    rw [h]
    simp [List.filter_true]
  · rfl

/-! ### Validation characterization -/

theorem normalize_node_type_eq_none_iff (raw : String) :
    normalize_node_type raw = none ↔
      strTrim raw ≠ ("geo") ∧ strTrim raw ≠ ("text") ∧ strTrim raw ≠ ("note") := by
  unfold normalize_node_type
  split <;> simp_all

theorem normalize_node_type_eq_some {raw ty : String}
    (h : normalize_node_type raw = some ty) :
    (ty = ("geo") ∨ ty = ("text") ∨ ty = ("note")) ∧ strTrim raw = ty := by
  unfold normalize_node_type at h
  split at h <;> simp_all

theorem allowedType_of_normalize {raw ty : String}
    (h : normalize_node_type raw = some ty) : allowedType ty = true := by
  rcases (normalize_node_type_eq_some h).1 with rfl | rfl | rfl <;> decide

theorem badDimension_eq_true_iff (o : Option F64) :
    badDimension o = true ↔
      ∃ v, o = some v ∧ (v.isFinite = false ∨ v.leZero = true) := by
  cases o with
  | none => simp [badDimension]
  | some v =>
    simp only [badDimension, Bool.or_eq_true, Bool.not_eq_true',
      Option.some.injEq]
    constructor
    · intro h
      exact ⟨v, rfl, h⟩
    · rintro ⟨w, rfl, h⟩
      exact h

theorem validate_msg_id {node : NodePayload}
    (h : strIsEmpty (strTrim node.id) = true) :
    validate_node_payload node = .error ("node.id must not be empty") := by
  simp [validate_node_payload, h]

theorem validate_msg_type {node : NodePayload}
    (h1 : strIsEmpty (strTrim node.id) = false)
    (h2 : normalize_node_type node.node_type = none) :
    validate_node_payload node =
      .error (s!"unsupported node type: {node.node_type}") := by
  simp [validate_node_payload, h1, h2]

theorem validate_msg_coords {node : NodePayload}
    (h1 : strIsEmpty (strTrim node.id) = false)
    (h2 : (normalize_node_type node.node_type).isNone = false)
    (h3 : (!node.x.isFinite || !node.y.isFinite) = true) :
    validate_node_payload node =
      .error ("node coordinates must be finite numbers") := by
  simp [validate_node_payload, h1, h2, h3]

theorem validate_msg_width {node : NodePayload}
    (h1 : strIsEmpty (strTrim node.id) = false)
    (h2 : (normalize_node_type node.node_type).isNone = false)
    (h3 : (!node.x.isFinite || !node.y.isFinite) = false)
    (h4 : badDimension node.width = true) :
    validate_node_payload node =
      .error ("node.width must be a positive finite number when provided") := by
  simp [validate_node_payload, h1, h2, h3, h4]

theorem validate_msg_height {node : NodePayload}
    (h1 : strIsEmpty (strTrim node.id) = false)
    (h2 : (normalize_node_type node.node_type).isNone = false)
    (h3 : (!node.x.isFinite || !node.y.isFinite) = false)
    (h4 : badDimension node.width = false)
    (h5 : badDimension node.height = true) :
    validate_node_payload node =
      .error ("node.height must be a positive finite number when provided") := by
  simp [validate_node_payload, h1, h2, h3, h4, h5]

theorem validate_ok_of_all {node : NodePayload}
    (h1 : strIsEmpty (strTrim node.id) = false)
    (h2 : (normalize_node_type node.node_type).isNone = false)
    (h3 : (!node.x.isFinite || !node.y.isFinite) = false)
    (h4 : badDimension node.width = false)
    (h5 : badDimension node.height = false) :
    validate_node_payload node = .ok () := by
  simp [validate_node_payload, h1, h2, h3, h4, h5]

theorem validate_ok_iff (node : NodePayload) :
    validate_node_payload node = .ok () ↔
      strIsEmpty (strTrim node.id) = false ∧
      (normalize_node_type node.node_type).isNone = false ∧
      (!node.x.isFinite || !node.y.isFinite) = false ∧
      badDimension node.width = false ∧
      badDimension node.height = false := by
  constructor
  · intro h
    by_cases h1 : strIsEmpty (strTrim node.id) = true
    · rw [validate_msg_id h1] at h
      cases h
    rw [Bool.not_eq_true] at h1
    by_cases h2 : (normalize_node_type node.node_type).isNone = true
    · rw [validate_msg_type h1 (Option.isNone_iff_eq_none.mp h2)] at h
      cases h
    rw [Bool.not_eq_true] at h2
    by_cases h3 : (!node.x.isFinite || !node.y.isFinite) = true
    · rw [validate_msg_coords h1 h2 h3] at h
      cases h
    rw [Bool.not_eq_true] at h3
    by_cases h4 : badDimension node.width = true
    · rw [validate_msg_width h1 h2 h3 h4] at h
      cases h
    rw [Bool.not_eq_true] at h4
    by_cases h5 : badDimension node.height = true
    · rw [validate_msg_height h1 h2 h3 h4 h5] at h
      cases h
    rw [Bool.not_eq_true] at h5
    exact ⟨h1, h2, h3, h4, h5⟩
  · rintro ⟨h1, h2, h3, h4, h5⟩
    exact validate_ok_of_all h1 h2 h3 h4 h5

theorem validate_result_cases (node : NodePayload) :
    validate_node_payload node = .ok () ∨
      ∃ e, validate_node_payload node = .error e := by
  cases h : validate_node_payload node with
  | ok u => cases u; exact Or.inl rfl
  | error e => exact Or.inr ⟨e, rfl⟩

theorem validate_isSome_of_ok {node : NodePayload}
    (h : validate_node_payload node = .ok ()) :
    (normalize_node_type node.node_type).isSome = true := by
  have h2 := ((validate_ok_iff node).mp h).2.1
  cases hn : normalize_node_type node.node_type with
  | none => rw [hn] at h2; cases h2
  | some ty => rfl

/-! ### Upsert store lemmas -/

/-- Observation of the table: the row stored under primary key `i`
(`SELECT * FROM nodes WHERE id = i`). -/
def findRow (i : String) (db : Db) : Option Row :=
  db.find? (fun r => r.id == i)

/-- The table stores exactly `r` under key `i`: some row with id `i` is
present, and every row with id `i` equals `r`. -/
def RowStored (i : String) (r : Row) (db : Db) : Prop :=
  (∃ row ∈ db, row.id = i) ∧ (∀ row ∈ db, row.id = i → row = r)

theorem findRow_eq_of_stored {i : String} {r : Row} :
    ∀ {db : Db}, RowStored i r db → findRow i db = some r
  | [], h => absurd h.1 (by simp)
  | row :: rest, h => by
    obtain ⟨⟨w, hw, hwid⟩, hall⟩ := h
    by_cases hid : row.id = i
    · have hr : row = r := hall row (List.mem_cons_self row rest) hid
      rw [findRow, List.find?_cons_of_pos _ (by simp [hid]), hr]
    · have hbeq : (row.id == i) = false := beq_eq_false_iff_ne.mpr hid
      rw [findRow, List.find?_cons_of_neg _ (by simp [hbeq])]
      apply findRow_eq_of_stored
      refine ⟨⟨w, ?_, hwid⟩, fun q hq hqid => hall q (List.mem_cons_of_mem _ hq) hqid⟩
      rcases List.mem_cons.mp hw with rfl | hw
      · exact absurd hwid hid
      · exact hw

theorem RowStored_upsertRow_self (db : Db) (r : Row) :
    RowStored r.id r (upsertRow db r) := by
  unfold upsertRow
  by_cases hany : db.any (fun row => row.id == r.id) = true
  · rw [if_pos hany]
    obtain ⟨w, hw, hbeq⟩ := List.any_eq_true.mp hany
    constructor
    · refine ⟨r, List.mem_map.mpr ⟨w, hw, ?_⟩, rfl⟩
      rw [if_pos hbeq]
    · intro row' hrow' _
      obtain ⟨w0, _, himg⟩ := List.mem_map.mp hrow'
      by_cases h0 : (w0.id == r.id) = true
      · rw [if_pos h0] at himg
        exact himg.symm
      · rw [if_neg h0] at himg
        subst himg
        rename_i hid
        exact absurd (beq_iff_eq.mpr hid) h0
  · rw [if_neg hany]
    constructor
    · exact ⟨r, List.mem_append_right db (List.mem_singleton_self r), rfl⟩
    · intro row hrow hid
      rcases List.mem_append.mp hrow with hdb | hr
      · exfalso
        apply hany
        exact List.any_eq_true.mpr ⟨row, hdb, beq_iff_eq.mpr hid⟩
      · exact List.mem_singleton.mp hr

theorem RowStored_upsertRow_other {i : String} {q : Row} (db : Db) (r : Row)
    (hne : r.id ≠ i) (h : RowStored i q db) : RowStored i q (upsertRow db r) := by
  obtain ⟨⟨w, hw, hwid⟩, hall⟩ := h
  unfold upsertRow
  by_cases hany : db.any (fun row => row.id == r.id) = true
  · rw [if_pos hany]
    constructor
    · refine ⟨w, List.mem_map.mpr ⟨w, hw, ?_⟩, hwid⟩
      rw [if_neg]
      intro hbeq
      have hw2 : w.id = r.id := beq_iff_eq.mp hbeq
      exact hne (hw2 ▸ hwid)
    · intro row' hrow' hid
      obtain ⟨w0, hw0, himg⟩ := List.mem_map.mp hrow'
      by_cases h0 : (w0.id == r.id) = true
      · rw [if_pos h0] at himg
        subst himg
        exact absurd hid hne
      · rw [if_neg h0] at himg
        subst himg
        exact hall w0 hw0 hid
  · rw [if_neg hany]
    constructor
    · exact ⟨w, List.mem_append_left _ hw, hwid⟩
    · intro row hrow hid
      rcases List.mem_append.mp hrow with hdb | hr
      · exact hall row hdb hid
      · rw [List.mem_singleton.mp hr] at hid
        exact absurd hid hne

theorem RowStored_execUpserts {i : String} {q : Row} {tnow : Nat} :
    ∀ {nodes : List NodePayload} {db db' : Db},
      (∀ p ∈ nodes, normalize_shape_id p.id ≠ i) → RowStored i q db →
      execUpserts db nodes tnow = .ok db' → RowStored i q db'
  | [], db, db', _, hst, hex => by
    cases hex
    exact hst
  | node :: rest, db, db', hne, hst, hex => by
    rw [execUpserts] at hex
    cases hn : execUpsert db node tnow with
    | error e => rw [hn] at hex; cases hex
    | ok d1 =>
      rw [hn] at hex
      cases hty : normalize_node_type node.node_type with
      | none => rw [execUpsert, hty] at hn; cases hn
      | some ty =>
        rw [execUpsert, hty] at hn
        cases hn
        refine RowStored_execUpserts (fun p hp => hne p (List.mem_cons_of_mem _ hp)) ?_ hex
        exact RowStored_upsertRow_other db _ (hne node (List.mem_cons_self _ _)) hst

theorem execUpserts_append (xs ys : List NodePayload) (db : Db) (tnow : Nat) :
    execUpserts db (xs ++ ys) tnow =
      match execUpserts db xs tnow with
      | .error e => .error e
      | .ok d => execUpserts d ys tnow := by
  induction xs generalizing db with
  | nil => simp [execUpserts]
  | cons x xs ih =>
    rw [List.cons_append]
    cases hx : execUpsert db x tnow with
    | error e => simp only [execUpserts, hx]
    | ok d1 =>
      simp only [execUpserts, hx]
      exact ih d1

theorem validateAll_ok_of_forall {nodes : List NodePayload}
    (h : ∀ n ∈ nodes, validate_node_payload n = .ok ()) :
    validateAll nodes = .ok () := by
  induction nodes with
  | nil => rfl
  | cons m rest ih =>
    rw [validateAll, h m (List.mem_cons_self _ _)]
    exact ih (fun n hn => h n (List.mem_cons_of_mem _ hn))

theorem validateAll_error_of_mem {nodes : List NodePayload} {n : NodePayload}
    {e : String} (hn : n ∈ nodes) (he : validate_node_payload n = .error e) :
    ∃ msg, validateAll nodes = .error msg := by
  induction nodes with
  | nil => cases hn
  | cons m rest ih =>
    cases hv : validate_node_payload m with
    | error msg => exact ⟨msg, by rw [validateAll, hv]⟩
    | ok u =>
      cases u
      rcases List.mem_cons.mp hn with rfl | hn'
      · rw [he] at hv
        cases hv
      · obtain ⟨msg, hmsg⟩ := ih hn'
        exact ⟨msg, by rw [validateAll, hv, hmsg]⟩

theorem execUpserts_ok_of_valid (tnow : Nat) :
    ∀ {nodes : List NodePayload} (db : Db),
      (∀ n ∈ nodes, validate_node_payload n = .ok ()) →
      ∃ db', execUpserts db nodes tnow = .ok db'
  | [], db, _ => ⟨db, rfl⟩
  | node :: rest, db, h => by
    have hs := validate_isSome_of_ok (h node (List.mem_cons_self _ _))
    cases hty : normalize_node_type node.node_type with
    | none => rw [hty] at hs; cases hs
    | some ty =>
      obtain ⟨db', hdb'⟩ :=
        execUpserts_ok_of_valid tnow
          (upsertRow db (rowOfPayload node ty tnow))
          (fun n hn => h n (List.mem_cons_of_mem _ hn))
      refine ⟨db', ?_⟩
      simp only [execUpserts, execUpsert, hty]
      exact hdb'

/-! ### Schema manager lemmas -/

theorem ensure_column_of_has {s : SchemaState} {n d : String}
    (h : hasColumn s n = true) : ensure_column s n d = .ok s := by
  simp [ensure_column, h]

theorem hasColumn_set_index (s : SchemaState) (b : Bool) (m : String) :
    hasColumn { s with typeUpdatedAtIndex := b } m = hasColumn s m := rfl

theorem ensure_column_ok_spec {s : SchemaState} (n d : String)
    (hsome : s.nodesTable.isSome = true) :
    ∃ s', ensure_column s n d = .ok s' ∧ s'.nodesTable.isSome = true ∧
      s'.typeUpdatedAtIndex = s.typeUpdatedAtIndex ∧ hasColumn s' n = true ∧
      ∀ m, hasColumn s m = true → hasColumn s' m = true := by
  by_cases h : hasColumn s n = true
  · exact ⟨s, ensure_column_of_has h, hsome, rfl, h, fun _ hm => hm⟩
  · cases hc : s.nodesTable with
    | none => rw [hc] at hsome; cases hsome
    | some cols =>
      refine ⟨{ s with nodesTable := some (cols ++ [{ name := n, defn := d }]) },
        ?_, rfl, rfl, ?_, ?_⟩
      · simp [ensure_column, h, hc]
      · simp [hasColumn, List.any_append]
      · intro m hm
        simp only [hasColumn, hc] at hm
        simp [hasColumn, List.any_append, hm]

theorem createTable_isSome (s : SchemaState) :
    (createTableIfNotExists s).nodesTable.isSome = true := by
  unfold createTableIfNotExists
  cases hc : s.nodesTable <;> simp [hc]

theorem createTable_of_some {s : SchemaState}
    (h : s.nodesTable.isSome = true) : createTableIfNotExists s = s := by
  unfold createTableIfNotExists
  cases hc : s.nodesTable with
  | none => rw [hc] at h; cases h
  | some cols => rfl

theorem init_schema_ok (s : SchemaState) :
    ∃ s', init_schema s = .ok s' ∧ s'.nodesTable.isSome = true ∧
      hasColumn s' ("width") = true ∧ hasColumn s' ("height") = true ∧
      hasColumn s' ("updated_at") = true ∧ s'.typeUpdatedAtIndex = true := by
  have h1 := createTable_isSome s
  obtain ⟨s2, e2, h2some, _, h2w, h2mono⟩ :=
    ensure_column_ok_spec ("width") ("REAL") h1
  obtain ⟨s3, e3, h3some, _, h3h, h3mono⟩ :=
    ensure_column_ok_spec ("height") ("REAL") h2some
  obtain ⟨s4, e4, h4some, _, h4u, h4mono⟩ :=
    ensure_column_ok_spec ("updated_at") ("INTEGER NOT NULL DEFAULT 0") h3some
  refine ⟨{ s4 with typeUpdatedAtIndex := true }, ?_, ?_, ?_, ?_, ?_, rfl⟩
  · simp only [init_schema, e2, e3, e4]
  · simpa using h4some
  · rw [hasColumn_set_index]
    exact h4mono _ (h3mono _ h2w)
  · rw [hasColumn_set_index]
    exact h4mono _ h3h
  · rw [hasColumn_set_index]
    exact h4u

theorem init_schema_second_run {s' : SchemaState}
    (hsome : s'.nodesTable.isSome = true)
    (hw : hasColumn s' ("width") = true) (hh : hasColumn s' ("height") = true)
    (hu : hasColumn s' ("updated_at") = true)
    (hidx : s'.typeUpdatedAtIndex = true) : init_schema s' = .ok s' := by
  have hct : createTableIfNotExists s' = s' := createTable_of_some hsome
  simp only [init_schema, hct, ensure_column_of_has hw, ensure_column_of_has hh,
    ensure_column_of_has hu]
  cases s' with
  | mk t idx =>
    simp only at hidx
    rw [hidx]

theorem foldl_ndiStep_all_empty :
    ∀ {ids : List String} (acc : List String),
      (∀ id ∈ ids, strIsEmpty (strTrim id) = true) →
      ids.foldl ndiStep acc = acc
  | [], _, _ => rfl
  | id :: rest, acc, h => by
    rw [List.foldl_cons, ndiStep_of_empty (h id (List.mem_cons_self _ _))]
    exact foldl_ndiStep_all_empty acc (fun i hi => h i (List.mem_cons_of_mem _ hi))

theorem mem_upsertRow_self (db : Db) (r : Row) : r ∈ upsertRow db r := by
  obtain ⟨⟨row, hrow, hid⟩, hall⟩ := RowStored_upsertRow_self db r
  have hreq := hall row hrow hid
  exact hreq ▸ hrow

/-! ### Claim theorems -/

/-- C1: whenever some payload of the batch fails validation,
`upsert_nodes_internal` returns an error; validation runs before the
transaction opens, so no row is written and the stored state is the
caller's unchanged `db` (an `Except.error` result carries no new state). -/
theorem upsert_invalid_batch_atomic (db : Db) (nodes : List NodePayload)
    (tnow : Nat) (n : NodePayload) (e : String) (hn : n ∈ nodes)
    (he : validate_node_payload n = .error e) :
    ∃ msg, upsert_nodes_internal db nodes tnow = .error msg := by
  obtain ⟨msg, hmsg⟩ := validateAll_error_of_mem hn he
  refine ⟨msg, ?_⟩
  cases nodes with
  | nil => cases hn
  | cons m rest => simp [upsert_nodes_internal, hmsg]

/-- Witness for C1: a batch whose first payload is valid and whose second
has the unsupported type `"draw"` is rejected whole. -/
theorem upsert_invalid_batch_atomic_witness :
    ∃ msg, upsert_nodes_internal []
      [{ id := "a", node_type := "geo", x := .finite 1, y := .finite 2,
         content := "ok", width := none, height := none },
       { id := "b", node_type := "draw", x := .finite 0, y := .finite 0,
         content := "bad", width := none, height := none }] 7 = .error msg :=
  upsert_invalid_batch_atomic [] _ 7
    { id := "b", node_type := "draw", x := .finite 0, y := .finite 0,
      content := "bad", width := none, height := none }
    ("unsupported node type: draw") (by decide) (by decide)

/-- C6: schema initialization is idempotent — the first run succeeds with
some schema `s'`, the second run succeeds and returns `s'` unchanged —
and `ensure_column` on an already-present column is a successful no-op. -/
theorem init_schema_idempotent :
    (∀ s : SchemaState, ∃ s', init_schema s = .ok s' ∧ init_schema s' = .ok s') ∧
    (∀ (s : SchemaState) (name defn : String),
      hasColumn s name = true → ensure_column s name defn = .ok s) := by
  constructor
  · intro s
    obtain ⟨s', h, hsome, hw, hh, hu, hidx⟩ := init_schema_ok s
    exact ⟨s', h, init_schema_second_run hsome hw hh hu hidx⟩
  · intro s name defn h
    exact ensure_column_of_has h

/-- Witness for C6: a fresh empty database schema, and a no-op
`ensure_column` call on a table that already has a `width` column. -/
theorem init_schema_idempotent_witness :
    ensure_column
      { nodesTable := some [{ name := "width", defn := "REAL" }],
        typeUpdatedAtIndex := false } ("width") ("REAL") =
    .ok { nodesTable := some [{ name := "width", defn := "REAL" }],
          typeUpdatedAtIndex := false } :=
  init_schema_idempotent.2 _ ("width") ("REAL") (by decide)

/-- C8: `upsert_nodes_internal` on the empty batch and
`delete_nodes_internal` on ids that all trim to empty (the empty list
included) both succeed and return the database unchanged: both
short-circuit before issuing any statement. -/
theorem empty_input_noops :
    (∀ (db : Db) (tnow : Nat), upsert_nodes_internal db [] tnow = .ok db) ∧
    (∀ (db : Db) (ids : List String),
      (∀ id ∈ ids, strIsEmpty (strTrim id) = true) →
      delete_nodes_internal db ids = .ok db) := by
  constructor
  · intro db tnow
    rfl
  · intro db ids h
    have hnorm : normalize_delete_ids ids = [] := foldl_ndiStep_all_empty [] h
    simp [delete_nodes_internal, hnorm]

/-- Witness for C8: deleting `["  ", ""]` from a one-row table leaves it
unchanged. -/
theorem empty_input_noops_witness :
    delete_nodes_internal
      [{ id := "shape:a", node_type := "geo", x := .finite 0, y := .finite 0,
         content := "", width := none, height := none, updated_at := 3 }]
      ["  ", ""] =
    .ok [{ id := "shape:a", node_type := "geo", x := .finite 0, y := .finite 0,
           content := "", width := none, height := none, updated_at := 3 }] :=
  empty_input_noops.2 _ (["  ", ""]) (by decide)

/-- C9: `normalize_shape_id` trims, keeps an already-prefixed id
unchanged, prepends `"shape:"` otherwise, maps whitespace-only input to
the bare prefix, and always returns a string carrying the prefix. -/
theorem normalize_shape_id_spec (raw : String) :
    (strStartsWith (strTrim raw) ("shape:") = true →
      normalize_shape_id raw = strTrim raw) ∧
    (strStartsWith (strTrim raw) ("shape:") = false →
      normalize_shape_id raw = ("shape:") ++ strTrim raw) ∧
    (strTrim raw = ("") → normalize_shape_id raw = ("shape:")) ∧
    strStartsWith (normalize_shape_id raw) ("shape:") = true := by
  refine ⟨?_, ?_, ?_, ?_⟩
  · intro h
    simp [normalize_shape_id, h]
  · intro h
    simp [normalize_shape_id, h]
  · intro h
    simp only [normalize_shape_id, h]
    decide
  · unfold normalize_shape_id
    cases h : strStartsWith (strTrim raw) ("shape:") with
    | true => simp [h]
    | false =>
      simp only [h, Bool.false_eq_true, if_false]
      unfold strStartsWith
      rw [String.data_append]
      exact List.isPrefixOf_iff_prefix.mpr (List.prefix_append _ _)

/-- Witness for C9: evaluation at `"  artifact-1 "` (needs prefixing) and
at `"shape:z"` (already prefixed). -/
theorem normalize_shape_id_spec_witness :
    normalize_shape_id ("  artifact-1 ") = ("shape:") ++ strTrim ("  artifact-1 ") ∧
    normalize_shape_id ("shape:z") = strTrim ("shape:z") :=
  ⟨(normalize_shape_id_spec ("  artifact-1 ")).2.1 (by decide),
   (normalize_shape_id_spec ("shape:z")).1 (by decide)⟩

/-- C10: validation success implies the type re-normalization inside the
transaction loop cannot return `none`, so the in-loop unsupported-type
error branch is unreachable: a batch of validated payloads always
executes to a new state. -/
theorem validated_type_branch_unreachable :
    (∀ node : NodePayload, validate_node_payload node = .ok () →
      normalize_node_type node.node_type ≠ none) ∧
    (∀ (db : Db) (nodes : List NodePayload) (tnow : Nat),
      (∀ n ∈ nodes, validate_node_payload n = .ok ()) →
      ∃ db', execUpserts db nodes tnow = .ok db') := by
  constructor
  · intro node h hn
    have hs := validate_isSome_of_ok h
    rw [hn] at hs
    cases hs
  · intro db nodes tnow h
    exact execUpserts_ok_of_valid tnow db h

/-- Witness for C10: a concrete valid payload has a `some` normalized
type. -/
theorem validated_type_branch_unreachable_witness :
    normalize_node_type (" note ") ≠ none :=
  validated_type_branch_unreachable.1
    { id := "a", node_type := " note ", x := .finite 0, y := .finite 0,
      content := "", width := some (.finite 5), height := none }
    (by decide)

/-- C2 counterexample: a valid payload whose `type` is `" geo "` (with
surrounding whitespace) round-trips to a listed node whose `type` is the
trimmed `"geo"`, not the payload's literal `type` — so the listed type
does not always equal the payload's. -/
theorem upsert_roundtrip_counterexample :
    validate_node_payload
      { id := "artifact-1", node_type := " geo ", x := .finite 0, y := .finite 0,
        content := "c", width := none, height := none } = .ok () ∧
    Except.map list_nodes_internal
      (upsert_nodes_internal []
        [{ id := "artifact-1", node_type := " geo ", x := .finite 0, y := .finite 0,
           content := "c", width := none, height := none }] 1) =
      .ok [{ id := "shape:artifact-1", node_type := "geo", x := .finite 0,
             y := .finite 0, content := "c", width := none, height := none }] ∧
    (("geo" : String) = (" geo ")) = False := by
  refine ⟨by decide, by decide, ?_⟩
  simp only [eq_iff_iff, iff_false]
  decide

/-- C2 (amended): upserting a valid payload and then listing yields a
node whose id is the normalized (trimmed, `"shape:"`-prefixed) id, whose
type is the payload's **trimmed** type, and whose x, y, content, width
and height equal the payload's. -/
theorem upsert_roundtrip (db : Db) (p : NodePayload) (tnow : Nat)
    (hv : validate_node_payload p = .ok ()) :
    ∃ db' ty, upsert_nodes_internal db [p] tnow = .ok db' ∧
      normalize_node_type p.node_type = some ty ∧ ty = strTrim p.node_type ∧
      ({ id := normalize_shape_id p.id, node_type := ty, x := p.x, y := p.y,
         content := p.content, width := p.width, height := p.height } : NodeModel)
        ∈ list_nodes_internal db' := by
  have hs := validate_isSome_of_ok hv
  cases hty : normalize_node_type p.node_type with
  | none =>
    rw [hty] at hs
    cases hs
  | some ty =>
    refine ⟨upsertRow db (rowOfPayload p ty tnow), ty, ?_, rfl,
      (normalize_node_type_eq_some hty).2.symm, ?_⟩
    · simp only [upsert_nodes_internal, List.isEmpty_cons, validateAll, hv,
        execUpserts, execUpsert, hty]
      rfl
    · unfold list_nodes_internal
      refine List.mem_map.mpr ⟨rowOfPayload p ty tnow, ?_, rfl⟩
      rw [List.mem_insertionSort]
      exact List.mem_filter.mpr
        ⟨mem_upsertRow_self db _, allowedType_of_normalize hty⟩

/-- Witness for C2: the round-trip at a concrete valid payload. -/
theorem upsert_roundtrip_witness :
    ∃ db' ty,
      upsert_nodes_internal []
        [{ id := "artifact-1", node_type := "text", x := .finite 12,
           y := .finite 34, content := "IOC discovered", width := some (.finite 200),
           height := none }] 9 = .ok db' ∧
      normalize_node_type ("text") = some ty ∧ ty = strTrim ("text") ∧
      ({ id := normalize_shape_id ("artifact-1"), node_type := ty,
         x := .finite 12, y := .finite 34, content := "IOC discovered",
         width := some (.finite 200), height := none } : NodeModel)
        ∈ list_nodes_internal db' :=
  upsert_roundtrip []
    { id := "artifact-1", node_type := "text", x := .finite 12, y := .finite 34,
      content := "IOC discovered", width := some (.finite 200), height := none }
    9 (by decide)

/-- C3: listing returns exactly the rows whose type lies in `{geo, text,
note}` — as some sequence `rows` that is a permutation of the filtered
table, sorted by `updated_at` ascending then id ascending — and the
spec's scenario (upsert B, then A, then B again at later instants) lists
A before B. -/
theorem list_nodes_ordering :
    (∀ db : Db, ∃ rows : List Row,
        List.Perm rows (db.filter (fun r => allowedType r.node_type)) ∧
        rows.Sorted rowLe ∧
        list_nodes_internal db = rows.map NodeModel.from_row) ∧
    Except.map list_nodes_internal
      (Except.bind
        (upsert_nodes_internal []
          [{ id := "b", node_type := "note", x := .finite 0, y := .finite 0,
             content := "B", width := none, height := none }] 1)
        (fun d1 =>
          Except.bind
            (upsert_nodes_internal d1
              [{ id := "a", node_type := "note", x := .finite 0, y := .finite 0,
                 content := "A", width := none, height := none }] 2)
            (fun d2 =>
              upsert_nodes_internal d2
                [{ id := "b", node_type := "note", x := .finite 0, y := .finite 0,
                   content := "B", width := none, height := none }] 3))) =
      .ok [{ id := "shape:a", node_type := "note", x := .finite 0, y := .finite 0,
             content := "A", width := none, height := none },
           { id := "shape:b", node_type := "note", x := .finite 0, y := .finite 0,
             content := "B", width := none, height := none }] := by
  constructor
  · intro db
    exact ⟨_, List.perm_insertionSort rowLe _, List.sorted_insertionSort rowLe _, rfl⟩
  · decide

/-- C4: `normalize_delete_ids` produces exactly the set of prefixed
nonempty trimmed ids, independently of input order; deletion always
succeeds and removes exactly the rows whose id lies in that set (zero
rows for unmatched ids); and deleting `"artifact-2"` removes the row
stored as `"shape:artifact-2"`. -/
theorem delete_nodes_spec :
    (∀ (ids : List String) (a : String),
        a ∈ normalize_delete_ids ids ↔
          ∃ id ∈ ids, strIsEmpty (strTrim id) = false ∧
            a = normalize_shape_id (strTrim id)) ∧
    (∀ ids ids' : List String, List.Perm ids ids' →
        normalize_delete_ids ids = normalize_delete_ids ids') ∧
    (∀ (db : Db) (ids : List String),
        delete_nodes_internal db ids =
          .ok (db.filter (fun r => !(normalize_delete_ids ids).contains r.id))) ∧
    delete_nodes_internal
      [{ id := "shape:artifact-2", node_type := "note", x := .finite 0,
         y := .finite 0, content := "temporary", width := none, height := none,
         updated_at := 5 }]
      ["artifact-2"] = .ok [] := by
  refine ⟨mem_normalize_delete_ids, ?_, delete_nodes_internal_eq, by decide⟩
  intro ids ids' h
  exact normalize_delete_ids_perm h

/-- Witness for C4: the delete set is independent of the order of the
input ids. -/
theorem delete_nodes_spec_witness :
    normalize_delete_ids ["shape:b", "a"] = normalize_delete_ids ["a", "shape:b"] :=
  delete_nodes_spec.2.1 (["shape:b", "a"]) (["a", "shape:b"])
    (List.Perm.swap ("a") ("shape:b") [])

theorem validate_error_exists_iff_ne_ok (node : NodePayload) :
    (∃ e, validate_node_payload node = .error e) ↔
      validate_node_payload node ≠ .ok () := by
  constructor
  · rintro ⟨e, he⟩ hok
    rw [he] at hok
    cases hok
  · intro h
    rcases validate_result_cases node with hok | he
    · exact absurd hok h
    · exact he

/-- C5: validation rejects exactly when the id trims to empty, the
trimmed type is outside `{geo, text, note}`, a coordinate is non-finite,
or a present dimension is non-finite or ≤ 0; and the message returned is
that of the first failing check in the order id, type, x/y, width,
height. -/
theorem validate_payload_spec (node : NodePayload) :
    ((∃ e, validate_node_payload node = .error e) ↔
      (strIsEmpty (strTrim node.id) = true ∨
       (strTrim node.node_type ≠ ("geo") ∧ strTrim node.node_type ≠ ("text") ∧
         strTrim node.node_type ≠ ("note")) ∨
       node.x.isFinite = false ∨ node.y.isFinite = false ∨
       (∃ v, node.width = some v ∧ (v.isFinite = false ∨ v.leZero = true)) ∨
       (∃ v, node.height = some v ∧ (v.isFinite = false ∨ v.leZero = true)))) ∧
    (strIsEmpty (strTrim node.id) = true →
      validate_node_payload node = .error ("node.id must not be empty")) ∧
    (strIsEmpty (strTrim node.id) = false →
      normalize_node_type node.node_type = none →
      validate_node_payload node =
        .error (s!"unsupported node type: {node.node_type}")) ∧
    (strIsEmpty (strTrim node.id) = false →
      (normalize_node_type node.node_type).isNone = false →
      (node.x.isFinite = false ∨ node.y.isFinite = false) →
      validate_node_payload node =
        .error ("node coordinates must be finite numbers")) ∧
    (strIsEmpty (strTrim node.id) = false →
      (normalize_node_type node.node_type).isNone = false →
      node.x.isFinite = true → node.y.isFinite = true →
      badDimension node.width = true →
      validate_node_payload node =
        .error ("node.width must be a positive finite number when provided")) ∧
    (strIsEmpty (strTrim node.id) = false →
      (normalize_node_type node.node_type).isNone = false →
      node.x.isFinite = true → node.y.isFinite = true →
      badDimension node.width = false → badDimension node.height = true →
      validate_node_payload node =
        .error ("node.height must be a positive finite number when provided")) := by
  refine ⟨?_, validate_msg_id, ?_, ?_, ?_, ?_⟩
  · rw [validate_error_exists_iff_ne_ok]
    constructor
    · intro hne
      by_contra hnone
      push_neg at hnone
      obtain ⟨nA, nB, nC, nD, nE, nF⟩ := hnone
      simp only [ne_eq, Bool.not_eq_true] at nA
      simp only [ne_eq, Bool.not_eq_false] at nC nD
      have h2 : (normalize_node_type node.node_type).isNone = false := by
        cases hn : normalize_node_type node.node_type with
        | none =>
          obtain ⟨g, t, n⟩ := (normalize_node_type_eq_none_iff _).mp hn
          exact absurd (nB g t) n
        | some ty => rfl
      have h3 : (!node.x.isFinite || !node.y.isFinite) = false := by
        rw [nC, nD]
        rfl
      have h4 : badDimension node.width = false := by
        cases hbd : badDimension node.width with
        | true =>
          obtain ⟨v, hv, hcase⟩ := (badDimension_eq_true_iff _).mp hbd
          obtain ⟨hf, hl⟩ := nE v hv
          rcases hcase with h | h
          · exact absurd h hf
          · exact absurd h hl
        | false => rfl
      have h5 : badDimension node.height = false := by
        cases hbd : badDimension node.height with
        | true =>
          obtain ⟨v, hv, hcase⟩ := (badDimension_eq_true_iff _).mp hbd
          obtain ⟨hf, hl⟩ := nF v hv
          rcases hcase with h | h
          · exact absurd h hf
          · exact absurd h hl
        | false => rfl
      exact hne (validate_ok_of_all nA h2 h3 h4 h5)
    · intro hdisj hok
      obtain ⟨h1, h2, h3, h4, h5⟩ := (validate_ok_iff node).mp hok
      have hx : node.x.isFinite = true ∧ node.y.isFinite = true := by
        rcases hbx : node.x.isFinite with _ | _ <;>
          rcases hby : node.y.isFinite with _ | _ <;>
            rw [hbx, hby] at h3 <;> first | exact ⟨rfl, rfl⟩ | cases h3
      rcases hdisj with hA | hB | hC | hD | hE | hF
      · rw [h1] at hA
        cases hA
      · have : normalize_node_type node.node_type = none :=
          (normalize_node_type_eq_none_iff _).mpr hB
        rw [this] at h2
        cases h2
      · rw [hx.1] at hC
        cases hC
      · rw [hx.2] at hD
        cases hD
      · rw [(badDimension_eq_true_iff node.width).mpr hE] at h4
        cases h4
      · rw [(badDimension_eq_true_iff node.height).mpr hF] at h5
        cases h5
  · intro h1 h2
    exact validate_msg_type h1 h2
  · intro h1 h2 h3
    refine validate_msg_coords h1 h2 ?_
    rcases h3 with h | h <;> simp [h]
  · intro h1 h2 hx hy h4
    refine validate_msg_width h1 h2 ?_ h4
    rw [hx, hy]
    rfl
  · intro h1 h2 hx hy h4 h5
    refine validate_msg_height h1 h2 ?_ h4 h5
    rw [hx, hy]
    rfl

/-- Witness for C5: a payload with `width = some 0` is rejected with the
width message — the x/y and id checks pass first. -/
theorem validate_payload_spec_witness :
    validate_node_payload
      { id := "a", node_type := "geo", x := .finite 1, y := .finite 2,
        content := "", width := some (.finite 0), height := none } =
      .error ("node.width must be a positive finite number when provided") :=
  (validate_payload_spec
    { id := "a", node_type := "geo", x := .finite 1, y := .finite 2,
      content := "", width := some (.finite 0), height := none }).2.2.2.2.1
    (by decide) (by decide) (by decide) (by decide) (by decide)

/-- C7: payloads are applied in caller-supplied order, so when a batch
succeeds, the row stored under an id is the one written by the **last**
payload of the batch normalizing to that id. -/
theorem upsert_last_write_wins (db : Db) (l1 l2 : List NodePayload)
    (p : NodePayload) (tnow : Nat) (db' : Db)
    (hne : ∀ q ∈ l2, normalize_shape_id q.id ≠ normalize_shape_id p.id)
    (hok : upsert_nodes_internal db (l1 ++ p :: l2) tnow = .ok db') :
    ∃ ty, normalize_node_type p.node_type = some ty ∧
      findRow (normalize_shape_id p.id) db' = some (rowOfPayload p ty tnow) := by
  have hexec : execUpserts db (l1 ++ p :: l2) tnow = .ok db' := by
    unfold upsert_nodes_internal at hok
    have hemp : (l1 ++ p :: l2).isEmpty = false := by
      cases l1 <;> rfl
    rw [hemp] at hok
    simp only [Bool.false_eq_true, if_false] at hok
    cases hva : validateAll (l1 ++ p :: l2) with
    | error e =>
      rw [hva] at hok
      cases hok
    | ok u =>
      cases u
      rw [hva] at hok
      exact hok
  rw [execUpserts_append] at hexec
  cases h1 : execUpserts db l1 tnow with
  | error e =>
    rw [h1] at hexec
    cases hexec
  | ok d1 =>
    rw [h1] at hexec
    change execUpserts d1 (p :: l2) tnow = .ok db' at hexec
    cases hty : normalize_node_type p.node_type with
    | none =>
      simp only [execUpserts, execUpsert, hty] at hexec
      exact Except.noConfusion hexec
    | some ty =>
      simp only [execUpserts, execUpsert, hty] at hexec
      have hst : RowStored (normalize_shape_id p.id) (rowOfPayload p ty tnow)
          (upsertRow d1 (rowOfPayload p ty tnow)) :=
        RowStored_upsertRow_self d1 (rowOfPayload p ty tnow)
      have hfinal := RowStored_execUpserts hne hst hexec
      exact ⟨ty, rfl, findRow_eq_of_stored hfinal⟩

/-- Witness for C7: two payloads of one batch normalize to the same id
`"shape:x"`; the second one's content is what ends up stored. -/
theorem upsert_last_write_wins_witness :
    ∃ ty, normalize_node_type ("note") = some ty ∧
      findRow (normalize_shape_id ("x"))
        [{ id := "shape:x", node_type := "note", x := .finite 9, y := .finite 9,
           content := "second", width := none, height := none, updated_at := 4 }] =
        some (rowOfPayload
          { id := "shape:x", node_type := "note", x := .finite 9, y := .finite 9,
            content := "second", width := none, height := none } ty 4) :=
  upsert_last_write_wins []
    [{ id := "x", node_type := "geo", x := .finite 1, y := .finite 1,
       content := "first", width := none, height := none }] []
    { id := "shape:x", node_type := "note", x := .finite 9, y := .finite 9,
      content := "second", width := none, height := none } 4 _
    (by simp) (by decide)
